import Mathlib

/- Verification development for the MLR-Ddot-Ingester ddot parsing pipeline
   (ddot_utils.py).  Python strings are modelled as `List Char`, Python
   dictionaries as ordered association lists, and Python exceptions as
   `Except`.  All functions are computable and kernel-evaluable; the two
   loops whose argument does not shrink structurally are driven by an
   explicit fuel that is always instantiated with the input length. -/

set_option maxHeartbeats 1600000

deriving instance DecidableEq for Except

-- ## Character classes used by the source's regular expressions (ASCII data)

/-- Separator characters, regex `[=#]`. -/
def isSep (c : Char) : Bool := c == '=' || c == '#'

/-- Value ending characters, the leading character of regex `[\*\$]\s*`. -/
def isEnd (c : Char) : Bool := c == '*' || c == '$'

/-- Whitespace as matched by the `\s` class of the source's regex
(the inputs handled by the pipeline are ASCII). -/
def isPySpace (c : Char) : Bool :=
  c == ' ' || c == '\t' || c == '\n' || c == '\r' || c == '\x0b' || c == '\x0c'

/-- Index of the leftmost character satisfying `p`, i.e. the start of the
leftmost match of a single-character regex class (Python `re.search`). -/
def findFirst (p : Char → Bool) : List Char → Option Nat
  | [] => none
  | c :: rest => if p c then some 0 else (findFirst p rest).map (· + 1)

/-- A single quote character (ASCII 39). -/
def squote : Char := Char.ofNat 39

-- ## Error model

/-- Errors raised inside `parse_key_value_pairs`; each constructor is one
`raise ParseError(...)` site, carrying the `test_string` of the message. -/
inductive KVErr where
  | noPairs : KVErr
  | missingSeparator (rest : List Char) : KVErr
  | missingEndingToken (rest : List Char) : KVErr
  deriving DecidableEq, Repr

/-- The distinct `raise ParseError(...)` sites of the pipeline, as a tagged
enumeration (the Python code raises a single `ParseError` class whose
message distinguishes the cases). -/
inductive ParseErr where
  | emptyInput : ParseErr
  | noTransactions : ParseErr
  | validationError (msg : List Char) : ParseErr
  | tooManyTransactions : ParseErr
  | tokenError (lineNumbers : List Nat) (e : KVErr) : ParseErr
  | duplicateStationName (lineNumbers : List Nat) : ParseErr
  | missingTransactionType (lineNumbers : List Nat) : ParseErr
  | invalidCodes (lineNumbers : List Nat) (codes : List (List Char)) : ParseErr
  | invalidTransactionType (lineNumbers : List Nat) : ParseErr
  | duplicateSite (sites : List (Option (List Char) × Option (List Char))) : ParseErr
  deriving DecidableEq, Repr

/-- Ways a call of `parse` can fail to return normally: either a raised
`ParseError`, or an uncaught `IndexError` from out-of-bounds indexing. -/
inductive Failure where
  | parseError (e : ParseErr) : Failure
  | indexError : Failure
  deriving DecidableEq, Repr

-- ## Python dictionaries as ordered association lists

/-- A Python dict with string keys and values, as an ordered association
list with unique keys (insertion order kept, later assignment overwrites). -/
abbrev Dict : Type := List (List Char × List Char)

/-- Python `d[k] = v`: overwrites in place if the key is present, otherwise
appends the new binding at the end. -/
def dinsert (d : Dict) (k v : List Char) : Dict :=
  if (List.lookup k d).isSome then
    d.map (fun p => if p.1 = k then (k, v) else p)
  else
    d ++ [(k, v)]

/-- Python `d.get(k)`: `none` models Python `None`. -/
def dget (d : Dict) (k : List Char) : Option (List Char) := List.lookup k d

-- ## Module-level constants of ddot_utils.py

/-- KEY_TO_ATTR_MAPPING from ddot_utils.py, in source order. -/
def KEY_TO_ATTR_MAPPING : List (List Char × List Char) := [
  ("5".data, "projectNumber".data),
  ("900".data, "stationName".data),
  ("12".data, "stationName".data),
  ("802".data, "siteTypeCode".data),
  ("6".data, "districtCode".data),
  ("41".data, "countryCode".data),
  ("7".data, "stateFipsCode".data),
  ("8".data, "countyCode".data),
  ("42".data, "minorCivilDivisionCode".data),
  ("9".data, "latitude".data),
  ("10".data, "longitude".data),
  ("11".data, "coordinateAccuracyCode".data),
  ("35".data, "coordinateMethodCode".data),
  ("36".data, "coordinateDatumCode".data),
  ("16".data, "altitude".data),
  ("18".data, "altitudeAccuracyValue".data),
  ("17".data, "altitudeMethodCode".data),
  ("22".data, "altitudeDatumCode".data),
  ("13".data, "landNet".data),
  ("19".data, "topographicCode".data),
  ("20".data, "hydrologicUnitCode".data),
  ("801".data, "basinCode".data),
  ("813".data, "timeZoneCode".data),
  ("814".data, "daylightSavingsTimeFlag".data),
  ("14".data, "mapName".data),
  ("15".data, "mapScale".data),
  ("803".data, "agencyUseCode".data),
  ("39".data, "nationalWaterUseCode".data),
  ("804".data, "dataTypesCode".data),
  ("805".data, "instrumentsCode".data),
  ("711".data, "siteEstablishmentDate".data),
  ("806".data, "remarks".data),
  ("32".data, "siteWebReadyCode".data),
  ("3".data, "dataReliabilityCode".data),
  ("21".data, "firstConstructionDate".data),
  ("23".data, "primaryUseOfSiteCode".data),
  ("301".data, "secondaryUseOfSiteCode".data),
  ("302".data, "tertiaryUseOfSiteCode".data),
  ("24".data, "primaryUseOfWaterCode".data),
  ("25".data, "secondaryUseOfWaterCode".data),
  ("26".data, "tertiaryUseOfWaterCode".data),
  ("713".data, "aquiferTypeCode".data),
  ("714".data, "aquiferCode".data),
  ("715".data, "nationalAquiferCode".data),
  ("27".data, "holeDepth".data),
  ("28".data, "wellDepth".data),
  ("29".data, "sourceOfDepthCode".data),
  ("808".data, "drainageArea".data),
  ("809".data, "contributingDrainageArea".data),
  ("712".data, "gwFileCode".data),
  ("R".data, "databaseTableIdentifier".data),
  ("T".data, "transactionType".data)]

/-- DATABASE_TABLE_ID_TOKEN = 'R='. -/
def DATABASE_TABLE_ID_TOKEN : List Char := "R=".data

/-- MAX_TRANSACTIONS = 30000. -/
def MAX_TRANSACTIONS : Nat := 30000

-- ## Line splitting and validation (get_lines / validate_lines)

/-- Python `re.split over \x7b\r\n or \n\x7d` applied to a character list:
splits at each linefeed, also consuming an immediately preceding carriage
return; a lone carriage return does not split. -/
def splitRN : List Char → List (List Char)
  | [] => [[]]
  | '\n' :: rest => [] :: splitRN rest
  | '\r' :: '\n' :: rest => [] :: splitRN rest
  | c :: rest =>
    match splitRN rest with
    | [] => [[c]]
    | l :: ls => (c :: l) :: ls

/-- One pass of the `for index, line in enumerate(lines)` loop of
validate_lines: collects the three violation-category line-number lists
(too long, too short, bad site format), with elif precedence; recorded
numbers are `index + 2`. -/
def violations : List (List Char) → Nat → List Nat × List Nat × List Nat
  | [], _ => ([], [], [])
  | l :: rest, idx =>
    let r := violations rest (idx + 1)
    if 80 < l.length then ((idx + 2) :: r.1, r.2.1, r.2.2)
    else if l.length < 21 then (r.1, (idx + 2) :: r.2.1, r.2.2)
    else if l.get? 20 ≠ some ' ' then (r.1, r.2.1, (idx + 2) :: r.2.2)
    else r

/-- Python `', '.join(str(n) for n in nums)`. -/
def joinNums (nums : List Nat) : List Char :=
  List.intercalate ", ".data (nums.map (fun n => (toString n).data))

/-- The too-long clause of the validation message. -/
def msgLong (nums : List Nat) : List Char :=
  "Contains lines exceeding 80 characters: lines ".data ++ joinNums nums ++ ". ".data

/-- The too-short clause of the validation message. -/
def msgShort (nums : List Nat) : List Char :=
  "Contains lines with an invalid agency code / site number format (fewer than 21 characters): lines ".data
    ++ joinNums nums ++ ". ".data

/-- The bad-site-format clause of the validation message. -/
def msgBad (nums : List Nat) : List Char :=
  "Contains lines with invalid site number format: lines ".data ++ joinNums nums ++ ". ".data

/-- validate_lines: returns the concatenated error message, empty when all
lines pass. -/
def validate_lines (lines : List (List Char)) : List Char :=
  let v := violations lines 0
  (if v.1 = [] then [] else msgLong v.1)
    ++ (if v.2.1 = [] then [] else msgShort v.2.1)
    ++ (if v.2.2 = [] then [] else msgBad v.2.2)

/-- get_lines: split content into lines, drop the header, check for
emptiness, drop one trailing empty line, validate. -/
def get_lines (content : List Char) : Except Failure (List (List Char)) :=
  if content = [] then .error (.parseError .emptyInput)
  else
    let lines := (splitRN content).drop 1
    if lines = [] then .error (.parseError .noTransactions)
    else
      -- remove trailing line feed (lines is non-empty here)
      let lines2 := if lines.getLastD [] = [] then lines.dropLast else lines
      if validate_lines lines2 ≠ [] then
        .error (.parseError (.validationError (validate_lines lines2)))
      else .ok lines2

-- ## Transaction grouping (get_transactions)

/-- One parsed line of get_transactions: the 20-character site key, the
payload after the column-21 space, and the 1-based file line number. -/
structure PLine where
  key : List Char
  payload : List Char
  num : Nat
  deriving DecidableEq, Repr

/-- The `(line[0:20], line[21:], index + 2)` triples of get_transactions. -/
def parsedLines : List (List Char) → Nat → List PLine
  | [], _ => []
  | l :: rest, idx => ⟨l.take 20, l.drop 21, idx + 2⟩ :: parsedLines rest (idx + 1)

/-- A transaction dictionary of get_transactions. -/
structure Transaction where
  agencyCode : List Char
  siteNumber : List Char
  key_value_pairs : List Char
  line_numbers : List Nat
  deriving DecidableEq, Repr

/-- Builds the transaction dictionary appended by get_transactions. -/
def mkTrans (loc : List Char) (kvps : List (List Char)) (lns : List Nat) : Transaction :=
  ⟨loc.take 5, (loc.drop 5).take 15, List.intercalate [' '] kvps, lns⟩

/-- The inner loop of get_transactions over one groupby group: accumulates
payloads and line numbers, emitting a transaction whenever a payload starts
with `R=` while the buffer is non-empty, and emitting the final buffer. -/
def processRun (loc : List Char) : List PLine → List (List Char) → List Nat → List Transaction
  | [], kvps, lns => [mkTrans loc kvps lns]
  | l :: rest, kvps, lns =>
    if l.payload.take 2 = DATABASE_TABLE_ID_TOKEN ∧ kvps ≠ [] then
      mkTrans loc kvps lns :: processRun loc rest [l.payload] [l.num]
    else
      processRun loc rest (kvps ++ [l.payload]) (lns ++ [l.num])

/-- Processes one groupby group (the group key is the key of its first
line, and groups produced by groupby are never empty). -/
def processRunGroup : List PLine → List Transaction
  | [] => []
  | p :: ps => processRun p.key (p :: ps) [] []

/-- Contiguous runs of lines sharing one site key, in document order
(itertools.groupby); fuel-driven, with fuel at least the list length. -/
def runsF : Nat → List PLine → List (List PLine)
  | _, [] => []
  | 0, _ :: _ => []          -- unreachable when fuel ≥ length
  | fuel + 1, p :: ps =>
    (p :: ps.takeWhile (fun q => q.key == p.key))
      :: runsF fuel (ps.dropWhile (fun q => q.key == p.key))

/-- The flatMap of processRunGroup over the groupby runs, fuel-driven. -/
def gtFlatF (fuel : Nat) (pls : List PLine) : List Transaction :=
  (runsF fuel pls).map processRunGroup |>.flatten

/-- get_transactions from ddot_utils.py. -/
def get_transactions (lines : List (List Char)) : List Transaction :=
  gtFlatF (parsedLines lines 0).length (parsedLines lines 0)

-- ## Token parsing (parse_key_value_pairs)

/-- The while loop of parse_key_value_pairs, fuel-driven (each iteration
consumes at least one character, so fuel = length suffices).  At each step
the separator and the ending token are both searched from the start of the
remaining string. -/
def pkvGoF : Nat → List Char → Except KVErr (List (List Char × List Char))
  | _, [] => .ok []
  | 0, _ :: _ => .error .noPairs   -- unreachable when fuel ≥ length
  | fuel + 1, c :: cs =>
    match findFirst isSep (c :: cs) with
    | none => .error (.missingSeparator (c :: cs))
    | some i =>
      match findFirst isEnd (c :: cs) with
      | none => .error (.missingEndingToken (c :: cs))
      | some j =>
        let s := c :: cs
        let w := ((s.drop (j + 1)).takeWhile isPySpace).length
        let key := s.take i
        let value := (s.drop (i + 1)).take (j - (i + 1))
        match pkvGoF fuel (s.drop (j + 1 + w)) with
        | .error e => .error e
        | .ok rest => .ok ((key, value) :: rest)

/-- The while loop of parse_key_value_pairs at its natural fuel. -/
def pkvLoop (s : List Char) : Except KVErr (List (List Char × List Char)) :=
  pkvGoF s.length s

/-- parse_key_value_pairs from ddot_utils.py. -/
def parse_key_value_pairs (s : List Char) : Except KVErr (List (List Char × List Char)) :=
  if s = [] then .error .noPairs else pkvLoop s

-- ## Semantic validation helpers

/-- The found/has_duplicate loop of has_duplicate_station_name_keys. -/
def hdsnGo : List (List Char × List Char) → Bool → Bool
  | [], _ => false
  | kv :: rest, found =>
    if KEY_TO_ATTR_MAPPING.lookup kv.1 == some "stationName".data then
      if found then true else hdsnGo rest true
    else hdsnGo rest found

/-- has_duplicate_station_name_keys from ddot_utils.py. -/
def has_duplicate_station_name_keys (kvps : List (List Char × List Char)) : Bool :=
  hdsnGo kvps false

/-- has_transaction_type from ddot_utils.py. -/
def has_transaction_type (kvps : List (List Char × List Char)) : Bool :=
  1 == (kvps.filter (fun kv => kv.1 == "T".data)).length

/-- invalid_key_codes from ddot_utils.py. -/
def invalid_key_codes (kvps : List (List Char × List Char)) : List (List Char) :=
  (kvps.filter (fun kv => (KEY_TO_ATTR_MAPPING.lookup kv.1).isNone)).map (·.1)

/-- translate_keys_to_attributes from ddot_utils.py: the dict comprehension
over the pairs whose key is in the code table. -/
def translate_keys_to_attributes (kvps : List (List Char × List Char)) : Dict :=
  kvps.foldl (fun d kv =>
    match KEY_TO_ATTR_MAPPING.lookup kv.1 with
    | some attr => dinsert d attr kv.2
    | none => d) ([] : Dict)

/-- remove_leading_and_trailing_single_quotes from ddot_utils.py. -/
def remove_leading_and_trailing_single_quotes (v : List Char) : List Char :=
  if v.head? = some squote ∧ v.getLast? = some squote then
    (v.drop 1).take (v.length - 1 - 1)
  else v

/-- update_c_code_to_y_code from ddot_utils.py. -/
def update_c_code_to_y_code (v : List Char) : List Char :=
  if v = "C".data then "Y".data else v

/-- add_leading_space from ddot_utils.py. -/
def add_leading_space (v : List Char) : List Char :=
  match v with
  | [] => []
  | c :: _ => if c = ' ' ∨ c = '-' then v else ' ' :: v

/-- add_leading_zero from ddot_utils.py.  Python evaluates `value[1]`
whenever the length is non-zero, so a length-1 value raises IndexError,
modelled as `none`. -/
def add_leading_zero (v : List Char) : Option (List Char) :=
  if v.length = 0 then some v
  else
    match v.get? 1 with
    | none => none
    | some c =>
      if c = '1' ∨ c = '0' then some v
      else some (v.take 1 ++ '0' :: v.drop 1)

/-- too_many_transactions from ddot_utils.py. -/
def too_many_transactions (value : Nat) : Bool :=
  if value > MAX_TRANSACTIONS then true else false

-- ## The per-transaction body of parse's for loop

/-- Applies the siteWebReadyCode normalization of parse when present. -/
def applyWebReady (r : Dict) : Dict :=
  match dget r "siteWebReadyCode".data with
  | some v => dinsert r "siteWebReadyCode".data (update_c_code_to_y_code v)
  | none => r

/-- The body of parse's `for transaction in transactions` loop: tokenizes
the transaction payload, runs the semantic checks in source order, builds
and normalizes the attribute dictionary. -/
def processTransaction (t : Transaction) : Except Failure Dict :=
  match parse_key_value_pairs t.key_value_pairs with
  | .error e => .error (.parseError (.tokenError t.line_numbers e))
  | .ok kv_pairs =>
    if has_duplicate_station_name_keys kv_pairs then
      .error (.parseError (.duplicateStationName t.line_numbers))
    else if ¬ has_transaction_type kv_pairs then
      .error (.parseError (.missingTransactionType t.line_numbers))
    else if invalid_key_codes kv_pairs ≠ [] then
      .error (.parseError (.invalidCodes t.line_numbers (invalid_key_codes kv_pairs)))
    else
      let r0 := translate_keys_to_attributes kv_pairs
      let r1 := dinsert r0 "agencyCode".data t.agencyCode
      let r2 := dinsert r1 "siteNumber".data t.siteNumber
      if ¬ ((dget r2 "transactionType".data).getD [] = "A".data
            ∨ (dget r2 "transactionType".data).getD [] = "M".data) then
        .error (.parseError (.invalidTransactionType t.line_numbers))
      else
        let r3 := match dget r2 "stationName".data with
          | some v => dinsert r2 "stationName".data (remove_leading_and_trailing_single_quotes v)
          | none => r2
        let r4 := match dget r3 "latitude".data with
          | some v => dinsert r3 "latitude".data (add_leading_space v)
          | none => r3
        match dget r4 "longitude".data with
        | some v =>
          match add_leading_zero (add_leading_space v) with
          | none => .error .indexError
          | some v2 => .ok (applyWebReady (dinsert r4 "longitude".data v2))
        | none => .ok (applyWebReady r4)

/-- The whole for loop of parse: left-to-right, fail-fast, collecting the
per-transaction results in order. -/
def processAll : List Transaction → Except Failure (List Dict)
  | [] => .ok []
  | t :: rest =>
    match processTransaction t with
    | .error e => .error e
    | .ok r =>
      match processAll rest with
      | .error e => .error e
      | .ok rs => .ok (r :: rs)

-- ## The orchestrator (parse)

/-- Everything parse does before the sitefile filter and the duplicate-site
check: line splitting and validation, transaction grouping, the
transaction-count ceiling, and the per-transaction loop. -/
def pipelineResults (content : List Char) : Except Failure (List Dict) :=
  match get_lines content with
  | .error e => .error e
  | .ok lines =>
    let transactions := get_transactions lines
    if too_many_transactions transactions.length then
      .error (.parseError .tooManyTransactions)
    else processAll transactions

/-- The sitefile filter of parse. -/
def siteResultsOf (results : List Dict) : List Dict :=
  results.filter (fun r => dget r "databaseTableIdentifier".data = some "0".data)

/-- The (agencyCode, siteNumber) pairs parse builds for duplicate
detection. -/
def sitesOf (rs : List Dict) : List (Option (List Char) × Option (List Char)) :=
  rs.map (fun r => (dget r "agencyCode".data, dget r "siteNumber".data))

/-- Python `set([site for site in sites if sites.count(site) > 1])`. -/
def duplicateSitesOf (rs : List Dict) : List (Option (List Char) × Option (List Char)) :=
  ((sitesOf rs).filter (fun s => 1 < (sitesOf rs).count s)).dedup

/-- parse from ddot_utils.py. -/
def parse (content : List Char) : Except Failure (List Dict) :=
  match pipelineResults content with
  | .error e => .error e
  | .ok results =>
    let site_results := siteResultsOf results
    if duplicateSitesOf site_results ≠ [] then
      .error (.parseError (.duplicateSite (duplicateSitesOf site_results)))
    else .ok site_results

-- ## Reference definitions used to state claims

/-- Reference description of the transaction grouper used to state C2: a
single left-to-right pass over the parsed lines that emits the buffered
transaction whenever the site key changes or a payload starts with `R=`
while the buffer already holds a payload, and emits the final buffer at
the end of the input.  Two runs of one site key separated by another key
are therefore never merged. -/
def gtSpecAux : List PLine → List Char → List (List Char) → List Nat → List Transaction
  | [], loc, kvps, lns => [mkTrans loc kvps lns]
  | l :: rest, loc, kvps, lns =>
    if l.key == loc then
      if l.payload.take 2 = DATABASE_TABLE_ID_TOKEN ∧ kvps ≠ [] then
        mkTrans loc kvps lns :: gtSpecAux rest loc [l.payload] [l.num]
      else gtSpecAux rest loc (kvps ++ [l.payload]) (lns ++ [l.num])
    else mkTrans loc kvps lns :: gtSpecAux rest l.key [l.payload] [l.num]

/-- The sequential reference grouper (see gtSpecAux). -/
def gtSpec : List PLine → List Transaction
  | [] => []
  | l :: rest => gtSpecAux rest l.key [l.payload] [l.num]

/-- Serialization of key/value pairs back into the token grammar: key,
separator, value, ending token, concatenated in order. -/
def serializePairs (pairs : List (List Char × List Char)) : List Char :=
  (pairs.map (fun p => p.1 ++ '=' :: p.2 ++ ['*'])).flatten

-- ## Helper lemmas about findFirst, takeWhile, dropWhile

theorem findFirst_take (p : Char → Bool) :
    ∀ (l : List Char) (i : Nat), findFirst p l = some i → ∀ c ∈ l.take i, p c = false := by
  intro l
  induction l with
  | nil => intro i h; simp [findFirst] at h
  | cons a rest ih =>
    intro i h c hc
    by_cases hp : p a = true
    · simp [findFirst, hp] at h
      subst h
      simp at hc
    · rw [Bool.not_eq_true] at hp
      simp [findFirst, hp] at h
      obtain ⟨i', hi', rfl⟩ := h
      rw [List.take_succ_cons] at hc
      rcases List.mem_cons.mp hc with rfl | hmem
      · exact hp
      · exact ih i' hi' c hmem

theorem findFirst_get (p : Char → Bool) :
    ∀ (l : List Char) (i : Nat), findFirst p l = some i →
      ∃ c, l.get? i = some c ∧ p c = true := by
  intro l
  induction l with
  | nil => intro i h; simp [findFirst] at h
  | cons a rest ih =>
    intro i h
    by_cases hp : p a = true
    · simp [findFirst, hp] at h
      subst h
      exact ⟨a, rfl, hp⟩
    · rw [Bool.not_eq_true] at hp
      simp [findFirst, hp] at h
      obtain ⟨i', hi', rfl⟩ := h
      obtain ⟨c, hc, hpc⟩ := ih i' hi'
      exact ⟨c, by simpa using hc, hpc⟩

theorem findFirst_append (p : Char → Bool) (b : Char) (t : List Char) :
    ∀ (a : List Char), (∀ c ∈ a, p c = false) → p b = true →
      findFirst p (a ++ b :: t) = some a.length := by
  intro a
  induction a with
  | nil => intro _ hb; simp [findFirst, hb]
  | cons x xs ih =>
    intro ha hb
    have hx : p x = false := ha x (List.mem_cons_self x xs)
    have := ih (fun c hc => ha c (List.mem_cons_of_mem x hc)) hb
    simp [findFirst, hx, this]

theorem dropWhile_head_not {α} (p : α → Bool) :
    ∀ (l : List α) (c : α), (l.dropWhile p).head? = some c → p c = false := by
  intro l
  induction l with
  | nil => intro c h; simp [List.dropWhile] at h
  | cons a rest ih =>
    intro c h
    by_cases hp : p a = true
    · rw [List.dropWhile_cons_of_pos hp] at h
      exact ih c h
    · rw [Bool.not_eq_true] at hp
      rw [List.dropWhile_cons_of_neg (by simp [hp])] at h
      simp at h
      subst h
      exact hp

theorem drop_takeWhile_length {α} (p : α → Bool) :
    ∀ (l : List α), l.drop (l.takeWhile p).length = l.dropWhile p := by
  intro l
  induction l with
  | nil => simp
  | cons a rest ih =>
    by_cases hp : p a = true
    · rw [List.takeWhile_cons_of_pos hp, List.dropWhile_cons_of_pos hp]
      simpa using ih
    · rw [Bool.not_eq_true] at hp
      rw [List.takeWhile_cons_of_neg (by simp [hp]), List.dropWhile_cons_of_neg (by simp [hp])]
      simp

theorem takeWhile_eq_nil_head {α} (p : α → Bool) (l : List α) :
    (∀ c, l.head? = some c → p c = false) → l.takeWhile p = [] := by
  intro h
  cases l with
  | nil => simp
  | cons a rest =>
    have := h a rfl
    rw [List.takeWhile_cons_of_neg (by simp [this])]

theorem takeWhile_all {α} (p : α → Bool) :
    ∀ (l : List α), (∀ a ∈ l, p a = true) → l.takeWhile p = l := by
  intro l
  induction l with
  | nil => simp
  | cons a rest ih =>
    intro h
    rw [List.takeWhile_cons_of_pos (h a (List.mem_cons_self a rest))]
    rw [ih (fun x hx => h x (List.mem_cons_of_mem a hx))]

theorem dropWhile_all {α} (p : α → Bool) :
    ∀ (l : List α), (∀ a ∈ l, p a = true) → l.dropWhile p = [] := by
  intro l
  induction l with
  | nil => simp
  | cons a rest ih =>
    intro h
    rw [List.dropWhile_cons_of_pos (h a (List.mem_cons_self a rest))]
    exact ih (fun x hx => h x (List.mem_cons_of_mem a hx))

-- ## Fuel irrelevance for the token-parser loop

theorem pkvGoF_fuel : ∀ (n m : Nat) (s : List Char), s.length ≤ n → s.length ≤ m →
    pkvGoF n s = pkvGoF m s := by
  intro n
  induction n with
  | zero =>
    intro m s hn _
    have : s = [] := List.eq_nil_of_length_eq_zero (Nat.le_zero.mp hn)
    subst this
    cases m <;> rfl
  | succ n ih =>
    intro m s hn hm
    cases s with
    | nil => cases m <;> rfl
    | cons c cs =>
      cases m with
      | zero => simp at hm
      | succ m =>
        simp only [pkvGoF]
        cases hsep : findFirst isSep (c :: cs) with
        | none => simp [hsep]
        | some i =>
          cases hend : findFirst isEnd (c :: cs) with
          | none => simp [hsep, hend]
          | some j =>
            have hlen : ((c :: cs).drop
                (j + 1 + (((c :: cs).drop (j + 1)).takeWhile isPySpace).length)).length
                ≤ cs.length := by
              rw [List.length_drop]
              simp only [List.length_cons]
              omega
            simp only [List.length_cons] at hn hm
            simp only [hsep, hend]
            rw [ih m _ (by omega) (by omega)]

-- ## C10: longitude normalization can raise IndexError

/-- C10: the claim that parse raises only ParseError is contradicted by the
code: for a longitude value of a single character such as a hyphen,
add_leading_space returns the length-1 value unchanged and add_leading_zero
then reads index 1 out of bounds, so parse propagates an uncaught
IndexError.  This theorem evaluates the code at such a failing input. -/
theorem C10_add_leading_zero_index_error :
    add_leading_space "-".data = "-".data
    ∧ add_leading_zero "-".data = none
    ∧ parse "h\nUSGS 123456789012345 T=A*10=-*".data = .error .indexError := by
  refine ⟨by decide, by decide, by decide⟩

-- ## C3: token scanning of parse_key_value_pairs

/-- C3: the payload `5=ABC* T=A*` parses to exactly the two ordered pairs
(5, ABC) and (T, A); at each loop step both the separator search and the
ending-token search run from the start of the remaining string (not from
after the separator), and the scan position advances past the ending token
together with its trailing whitespace. -/
theorem C3_parse_key_value_pairs_scan :
    parse_key_value_pairs "5=ABC* T=A*".data =
      .ok [("5".data, "ABC".data), ("T".data, "A".data)]
    ∧ (∀ (s : List Char) (i j : Nat),
        findFirst isSep s = some i → findFirst isEnd s = some j →
          pkvLoop s =
            match pkvLoop (s.drop (j + 1 + ((s.drop (j + 1)).takeWhile isPySpace).length)) with
            | .error e => .error e
            | .ok rest => .ok ((s.take i, (s.drop (i + 1)).take (j - (i + 1))) :: rest))
    ∧ (∀ s : List Char, s ≠ [] → parse_key_value_pairs s = pkvLoop s) := by
  refine ⟨by decide, ?_, ?_⟩
  · intro s i j hsep hend
    cases s with
    | nil => simp [findFirst] at hsep
    | cons c cs =>
      show pkvGoF (c :: cs).length (c :: cs) = _
      simp only [List.length_cons]
      simp only [pkvGoF, hsep, hend]
      have hlen : ((c :: cs).drop
          (j + 1 + (((c :: cs).drop (j + 1)).takeWhile isPySpace).length)).length
          ≤ cs.length := by
        rw [List.length_drop]
        simp only [List.length_cons]
        omega
      rw [pkvGoF_fuel cs.length _ _ hlen (le_refl _)]
      rfl
  · intro s hs
    simp [parse_key_value_pairs, hs]

/-- Witness for C3: the step description instantiated at the concrete
payload `5=ABC* T=A*`, whose first separator is at index 1 and first ending
token at index 5, with one character of trailing whitespace consumed. -/
theorem C3_witness :
    findFirst isSep "5=ABC* T=A*".data = some 1
    ∧ findFirst isEnd "5=ABC* T=A*".data = some 5
    ∧ pkvLoop "5=ABC* T=A*".data =
        (match pkvLoop (("5=ABC* T=A*".data).drop
            (5 + 1 + ((("5=ABC* T=A*".data).drop (5 + 1)).takeWhile isPySpace).length)) with
          | .error e => .error e
          | .ok rest => .ok ((("5=ABC* T=A*".data).take 1,
              (("5=ABC* T=A*".data).drop (1 + 1)).take (5 - (1 + 1))) :: rest)) :=
  ⟨by decide, by decide,
    C3_parse_key_value_pairs_scan.2.1 "5=ABC* T=A*".data 1 5 (by decide) (by decide)⟩

-- ## C4: line validation

/-- Pulls one line off the front of a range-filter-map line-number list:
generic in the per-line condition. -/
theorem rangeFilterMap_cons (p : List Char → Bool) (l : List Char)
    (rest : List (List Char)) (idx : Nat) :
    ((List.range (l :: rest).length).filter
        (fun i => p ((l :: rest).getD i []))).map (fun i => i + idx + 2)
      = (if p l then [idx + 2] else [])
          ++ ((List.range rest.length).filter
                (fun i => p (rest.getD i []))).map (fun i => i + (idx + 1) + 2) := by
  have hmap : ∀ (xs : List Nat),
      xs.map ((fun i => i + idx + 2) ∘ Nat.succ) = xs.map (fun i => i + (idx + 1) + 2) := by
    intro xs
    apply List.map_congr_left
    intro a _
    simp only [Function.comp, Nat.succ_eq_add_one]
    omega
  rw [List.length_cons, List.range_succ_eq_map, List.filter_cons, List.filter_map]
  by_cases hp : p l = true
  all_goals
    simp [List.getD_cons_zero, hp, List.map_map, hmap]
    apply congrArg
    apply List.filter_congr
    intro a _
    simp [Function.comp, List.getD, List.getElem?_cons_succ]

/-- Closed-form characterization of the three violation lists collected by
the validate_lines loop: category membership is decided per index with
elif precedence, and every violating index is collected. -/
theorem violations_spec :
    ∀ (lines : List (List Char)) (idx : Nat),
      violations lines idx =
        (((List.range lines.length).filter
            (fun i => decide (80 < (lines.getD i []).length))).map (fun i => i + idx + 2),
         ((List.range lines.length).filter
            (fun i => decide (¬ 80 < (lines.getD i []).length
              ∧ (lines.getD i []).length < 21))).map (fun i => i + idx + 2),
         ((List.range lines.length).filter
            (fun i => decide (¬ 80 < (lines.getD i []).length
              ∧ ¬ (lines.getD i []).length < 21
              ∧ (lines.getD i []).get? 20 ≠ some ' '))).map (fun i => i + idx + 2)) := by
  intro lines
  induction lines with
  | nil => intro idx; simp [violations]
  | cons l rest ih =>
    intro idx
    rw [rangeFilterMap_cons (fun line => decide (80 < line.length)),
      rangeFilterMap_cons (fun line => decide (¬ 80 < line.length ∧ line.length < 21)),
      rangeFilterMap_cons (fun line => decide (¬ 80 < line.length ∧ ¬ line.length < 21
        ∧ line.get? 20 ≠ some ' '))]
    simp only [violations]
    rw [ih (idx + 1)]
    by_cases h1 : 80 < l.length
    · simp [h1]
    · by_cases h2 : l.length < 21
      · simp [h1, h2]
      · by_cases h3 : l.get? 20 ≠ some ' '
        · simp [h1, h2, h3, List.get?_eq_getElem? ] at h3 ⊢
          simp [h1, h2, h3]
        · simp [h1, h2, h3, List.get?_eq_getElem? ] at h3 ⊢
          simp [h1, h2, h3]

/-- C4: line validation assigns each line to at most one violation
category with elif precedence (length > 80 first, else length < 21, else
non-space at offset 20), collects all violations, and produces one message
concatenating one clause per non-empty category in the fixed order
too-long, too-short, bad-site-format, each listing the 1-based line
numbers (index plus 2); a 19-character line and an 85-character line in
one file are both reported in that single message. -/
theorem C4_validate_lines_aggregation :
    (∀ lines : List (List Char),
      violations lines 0 =
        (((List.range lines.length).filter
            (fun i => decide (80 < (lines.getD i []).length))).map (fun i => i + 0 + 2),
         ((List.range lines.length).filter
            (fun i => decide (¬ 80 < (lines.getD i []).length
              ∧ (lines.getD i []).length < 21))).map (fun i => i + 0 + 2),
         ((List.range lines.length).filter
            (fun i => decide (¬ 80 < (lines.getD i []).length
              ∧ ¬ (lines.getD i []).length < 21
              ∧ (lines.getD i []).get? 20 ≠ some ' '))).map (fun i => i + 0 + 2)))
    ∧ (∀ lines : List (List Char),
        (violations lines 0).1.inter (violations lines 0).2.1 = []
        ∧ (violations lines 0).1.inter (violations lines 0).2.2 = []
        ∧ (violations lines 0).2.1.inter (violations lines 0).2.2 = [])
    ∧ (∀ lines : List (List Char),
        validate_lines lines =
          (if (violations lines 0).1 = [] then [] else msgLong (violations lines 0).1)
            ++ (if (violations lines 0).2.1 = [] then [] else msgShort (violations lines 0).2.1)
            ++ (if (violations lines 0).2.2 = [] then [] else msgBad (violations lines 0).2.2))
    ∧ validate_lines [List.replicate 19 'a', List.replicate 85 'b']
        = msgLong [3] ++ msgShort [2] := by
  refine ⟨fun lines => violations_spec lines 0, ?_, fun lines => rfl, by decide⟩
  intro lines
  rw [violations_spec lines 0]
  refine ⟨?_, ?_, ?_⟩ <;>
    · rw [List.inter, List.filter_eq_nil_iff]
      intro a ha hmem
      have hmem2 := List.mem_of_elem_eq_true hmem
      simp only [List.mem_map, List.mem_filter, List.mem_range, decide_eq_true_eq] at ha hmem2
      obtain ⟨i, ⟨hiN, hPi⟩, hi2⟩ := ha
      obtain ⟨i', ⟨hi'N, hPi'⟩, hi'2⟩ := hmem2
      have hii : i = i' := by omega
      subst hii
      try obtain ⟨hPa, hPb⟩ := hPi
      try obtain ⟨hPb1, hPb2⟩ := hPb
      try obtain ⟨hQa, hQb⟩ := hPi'
      try obtain ⟨hQb1, hQb2⟩ := hQb
      omega

-- ## Error shapes of the pipeline stages

theorem processTransaction_error_shapes (t : Transaction) (e : Failure)
    (h : processTransaction t = .error e) :
    e = .indexError
    ∨ (∃ ke, e = .parseError (.tokenError t.line_numbers ke))
    ∨ e = .parseError (.duplicateStationName t.line_numbers)
    ∨ e = .parseError (.missingTransactionType t.line_numbers)
    ∨ (∃ cs, e = .parseError (.invalidCodes t.line_numbers cs))
    ∨ e = .parseError (.invalidTransactionType t.line_numbers) := by
  unfold processTransaction at h
  dsimp only [] at h
  repeat' split at h
  all_goals first
    | (injection h with he; subst he;
       first
         | exact Or.inl rfl
         | exact Or.inr (Or.inl ⟨_, rfl⟩)
         | exact Or.inr (Or.inr (Or.inl rfl))
         | exact Or.inr (Or.inr (Or.inr (Or.inl rfl)))
         | exact Or.inr (Or.inr (Or.inr (Or.inr (Or.inl ⟨_, rfl⟩))))
         | exact Or.inr (Or.inr (Or.inr (Or.inr (Or.inr rfl)))))
    | (cases h)

theorem processAll_error_mem (ts : List Transaction) (e : Failure)
    (h : processAll ts = .error e) :
    ∃ t ∈ ts, processTransaction t = .error e := by
  induction ts with
  | nil => simp [processAll] at h
  | cons t rest ih =>
    unfold processAll at h
    split at h
    · injection h with he
      subst he
      exact ⟨t, List.mem_cons_self t rest, by assumption⟩
    · split at h
      · injection h with he
        subst he
        obtain ⟨t', ht', he'⟩ := ih (by assumption)
        exact ⟨t', List.mem_cons_of_mem t ht', he'⟩
      · cases h

theorem get_lines_error_shapes (content : List Char) (e : Failure)
    (h : get_lines content = .error e) :
    e = .parseError .emptyInput ∨ e = .parseError .noTransactions
      ∨ (∃ m, e = .parseError (.validationError m)) := by
  unfold get_lines at h
  dsimp only [] at h
  repeat' split at h
  all_goals first
    | (injection h with he; subst he;
       first
         | exact Or.inl rfl
         | exact Or.inr (Or.inl rfl)
         | exact Or.inr (Or.inr ⟨_, rfl⟩))
    | (cases h)

theorem pipelineResults_error_shapes (content : List Char) (e : Failure)
    (h : pipelineResults content = .error e) :
    e = .parseError .emptyInput ∨ e = .parseError .noTransactions
    ∨ (∃ m, e = .parseError (.validationError m))
    ∨ e = .parseError .tooManyTransactions
    ∨ (∃ t : Transaction, processTransaction t = .error e) := by
  unfold pipelineResults at h
  split at h
  · rename_i he
    injection h with h'
    subst h'
    rcases get_lines_error_shapes _ _ he with h1 | h1 | ⟨m, h1⟩
    · exact Or.inl h1
    · exact Or.inr (Or.inl h1)
    · exact Or.inr (Or.inr (Or.inl ⟨m, h1⟩))
  · dsimp only [] at h
    split at h
    · injection h with h'
      subst h'
      exact Or.inr (Or.inr (Or.inr (Or.inl rfl)))
    · obtain ⟨t, _, he⟩ := processAll_error_mem _ _ h
      exact Or.inr (Or.inr (Or.inr (Or.inr ⟨t, he⟩)))

-- ## C8: when NoTransactions is raised

theorem splitRN_ne_nil : ∀ l : List Char, splitRN l ≠ [] := by
  intro l
  rw [splitRN.eq_def]
  split
  · simp
  · simp
  · simp
  · rename_i c rest h1 h2
    cases h : splitRN rest with
    | nil => simp
    | cons a as => simp

theorem splitRN_lf (rest : List Char) : splitRN ('\n' :: rest) = [] :: splitRN rest := rfl

theorem splitRN_crlf (rest : List Char) :
    splitRN ('\x0d' :: '\n' :: rest) = [] :: splitRN rest := rfl

theorem splitRN_cons_other (c : Char) (rest : List Char) (h1 : c ≠ '\n')
    (h2 : ∀ r2 : List Char, c = '\x0d' → rest = '\n' :: r2 → False) :
    splitRN (c :: rest)
      = match splitRN rest with
        | [] => [[c]]
        | l :: ls => (c :: l) :: ls := by
  rw [splitRN.eq_def]
  split
  · rename_i heq
    cases heq
  · rename_i r heq
    injection heq with hceq hreq
    exact absurd hceq h1
  · rename_i r heq
    injection heq with hceq hreq
    exact (h2 r hceq hreq).elim
  · rename_i c2 rest2 hx1 hx2 heq
    injection heq with hce hre
    subst hce
    subst hre
    rfl

theorem splitRN_length_one : ∀ l : List Char, (splitRN l).length = 1 ↔ '\n' ∉ l := by
  intro l
  induction l using splitRN.induct with
  | case1 => simp [splitRN]
  | case2 rest ih =>
    rw [splitRN_lf]
    apply iff_of_false
    · intro h
      simp only [List.length_cons] at h
      exact splitRN_ne_nil rest (List.eq_nil_of_length_eq_zero (by omega))
    · simp
  | case3 rest ih =>
    rw [splitRN_crlf]
    apply iff_of_false
    · intro h
      simp only [List.length_cons] at h
      exact splitRN_ne_nil rest (List.eq_nil_of_length_eq_zero (by omega))
    · simp
  | case4 c rest h1 h2 hnil ih =>
    exact absurd hnil (splitRN_ne_nil rest)
  | case5 c rest h1 h2 l ls hrest ih =>
    have hc : c ≠ '\n' := fun hh => h1 hh
    have hne : ('\n' ∈ c :: rest) ↔ ('\n' ∈ rest) := by
      simp [List.mem_cons, Ne.symm hc]
    rw [splitRN_cons_other c rest hc h2, hrest]
    rw [hrest] at ih
    simp only [List.length_cons] at ih ⊢
    rw [not_congr hne]
    exact ih

theorem get_lines_noTransactions_iff (content : List Char) :
    get_lines content = .error (.parseError .noTransactions)
      ↔ content ≠ [] ∧ '\n' ∉ content := by
  constructor
  · intro h
    unfold get_lines at h
    by_cases hc : content = []
    · rw [if_pos hc] at h
      injection h with he
      cases he
    · refine ⟨hc, ?_⟩
      rw [if_neg hc] at h
      dsimp only [] at h
      by_cases hl : (splitRN content).drop 1 = []
      · rw [← splitRN_length_one]
        have hne := splitRN_ne_nil content
        have hlen : (splitRN content).length ≤ 1 := by
          by_contra hgt
          rw [not_le] at hgt
          have h2 : 0 < ((splitRN content).drop 1).length := by
            rw [List.length_drop]
            omega
          exact (List.length_pos.mp h2) hl
        have hpos : 0 < (splitRN content).length := List.length_pos.mpr hne
        omega
      · rw [if_neg hl] at h
        repeat' split at h
        all_goals first
          | (injection h with he; cases he)
          | (cases h)
  · rintro ⟨hc, hn⟩
    have hlen : (splitRN content).length = 1 := (splitRN_length_one content).mpr hn
    have hdrop : (splitRN content).drop 1 = [] := by
      apply List.eq_nil_of_length_eq_zero
      simp only [List.length_drop]
      omega
    unfold get_lines
    rw [if_neg hc]
    dsimp only []
    rw [if_pos hdrop]

/-- C8 (amended): NoTransactions is raised exactly when the input is
non-empty but splitting produces a single line, i.e. the input contains no
linefeed at all; the emptiness check runs BEFORE the trailing empty line is
discarded, so a header followed by one line terminator does not raise it. -/
theorem C8_no_transactions_amended (content : List Char) :
    parse content = .error (.parseError .noTransactions)
      ↔ content ≠ [] ∧ '\n' ∉ content := by
  rw [← get_lines_noTransactions_iff]
  constructor
  · intro h
    unfold parse at h
    cases hp : pipelineResults content with
    | error e =>
      rw [hp] at h
      injection h with he
      subst he
      unfold pipelineResults at hp
      cases hg : get_lines content with
      | error e' =>
        rw [hg] at hp
        injection hp with he'
        rw [← he']
      | ok lines =>
        rw [hg] at hp
        dsimp only [] at hp
        split at hp
        · injection hp with he'
          cases he'
        · obtain ⟨t, _, het⟩ := processAll_error_mem _ _ hp
          rcases processTransaction_error_shapes _ _ het with
            h' | ⟨ke, h'⟩ | h' | h' | ⟨cs, h'⟩ | h' <;> cases h'
    | ok results =>
      rw [hp] at h
      dsimp only [] at h
      split at h
      · injection h with he
        cases he
      · cases h
  · intro hg
    have hp : pipelineResults content = .error (.parseError .noTransactions) := by
      unfold pipelineResults
      rw [hg]
    unfold parse
    rw [hp]

/-- Counterexample to C8 as stated: a header line followed by a single
line terminator leaves zero data lines after the trailing empty line is
discarded, yet parse returns the empty result list instead of failing
with NoTransactions. -/
theorem C8_counterexample : parse "h\n".data = .ok [] := by decide

-- ## C6 and C7: per-transaction semantic checks

theorem has_transaction_type_iff (kvps : List (List Char × List Char)) :
    has_transaction_type kvps = true
      ↔ kvps.countP (fun kv => kv.1 == "T".data) = 1 := by
  unfold has_transaction_type
  rw [List.countP_eq_length_filter, beq_iff_eq]
  exact eq_comm

theorem hdsnGo_iff :
    ∀ (l : List (List Char × List Char)) (found : Bool),
      hdsnGo l found = true
        ↔ (if found then 1 else 2)
            ≤ l.countP (fun kv => KEY_TO_ATTR_MAPPING.lookup kv.1 == some "stationName".data) := by
  intro l
  induction l with
  | nil =>
    intro found
    cases found <;> simp [hdsnGo]
  | cons kv rest ih =>
    intro found
    by_cases hkv : (KEY_TO_ATTR_MAPPING.lookup kv.1 == some "stationName".data) = true
    · cases found
      · simp only [hdsnGo, hkv, if_pos, if_neg, Bool.false_eq_true, if_false,
          List.countP_cons, hkv]
        rw [ih true]
        simp only [if_pos]
        omega
      · simp only [hdsnGo, hkv, if_pos, List.countP_cons]
        simp
    · simp only [hdsnGo, hkv, List.countP_cons]
      rw [if_neg (by simp [hkv]), ih found]
      simp only [Bool.not_eq_true] at hkv
      simp [hkv]

theorem has_duplicate_station_name_keys_iff (kvps : List (List Char × List Char)) :
    has_duplicate_station_name_keys kvps = true
      ↔ 2 ≤ kvps.countP (fun kv => KEY_TO_ATTR_MAPPING.lookup kv.1 == some "stationName".data) := by
  unfold has_duplicate_station_name_keys
  rw [hdsnGo_iff kvps false]
  simp

/-- C7: a transaction with at least two pairs whose codes map to the
stationName attribute (codes 900 and 12, in any combination, including a
repeated code) fails with DuplicateStationName regardless of the rest of
its content: the check runs before the transaction-type and unknown-code
checks, so no other condition matters. -/
theorem C7_duplicate_station_name (t : Transaction)
    (kvps : List (List Char × List Char))
    (hok : parse_key_value_pairs t.key_value_pairs = .ok kvps)
    (hdup : 2 ≤ kvps.countP
      (fun kv => KEY_TO_ATTR_MAPPING.lookup kv.1 == some "stationName".data)) :
    processTransaction t = .error (.parseError (.duplicateStationName t.line_numbers)) := by
  have hd : has_duplicate_station_name_keys kvps = true :=
    (has_duplicate_station_name_keys_iff kvps).mpr hdup
  unfold processTransaction
  rw [hok]
  dsimp only []
  rw [if_pos hd]

/-- Witness for C7: a transaction whose payload carries both station-name
codes 900 and 12 fails with DuplicateStationName even though it also lacks
a transaction type and a known database table identifier. -/
theorem C7_witness :
    processTransaction ⟨"USGS ".data, "123456789012345".data, "900=A*12=B*".data, [2]⟩
      = .error (.parseError (.duplicateStationName [2])) :=
  C7_duplicate_station_name _ [("900".data, "A".data), ("12".data, "B".data)]
    (by decide) (by decide)

/-- C6: once a transaction's pairs have passed the duplicate station name
check, the transaction fails with MissingTransactionType exactly when the
number of pairs whose key is the single letter T differs from 1: zero
occurrences fail, and two or more occurrences fail as well. -/
theorem C6_missing_transaction_type (t : Transaction)
    (kvps : List (List Char × List Char))
    (hok : parse_key_value_pairs t.key_value_pairs = .ok kvps)
    (hnodup : has_duplicate_station_name_keys kvps = false) :
    processTransaction t = .error (.parseError (.missingTransactionType t.line_numbers))
      ↔ kvps.countP (fun kv => kv.1 == "T".data) ≠ 1 := by
  unfold processTransaction
  rw [hok]
  dsimp only []
  rw [if_neg (by simp [hnodup])]
  by_cases htt : has_transaction_type kvps = true
  · rw [if_neg (by simp [htt])]
    apply iff_of_false
    · intro h
      repeat' split at h
      all_goals cases h
    · intro hne
      exact hne ((has_transaction_type_iff kvps).mp htt)
  · rw [if_pos (by simp [htt])]
    apply iff_of_true rfl
    intro heq
    exact htt ((has_transaction_type_iff kvps).mpr heq)

/-- Witness for C6: a transaction with no T pair at all fails with
MissingTransactionType. -/
theorem C6_witness :
    processTransaction ⟨"USGS ".data, "123456789012345".data, "5=ABC*".data, [2]⟩
      = .error (.parseError (.missingTransactionType [2])) :=
  (C6_missing_transaction_type _ [("5".data, "ABC".data)]
    (by decide) (by decide)).mpr (by decide)

-- ## C2: transaction grouping

theorem processRun_start (loc : List Char) (l : PLine) (ls : List PLine) :
    processRun loc (l :: ls) [] [] = processRun loc ls [l.payload] [l.num] := by
  unfold processRun
  rw [if_neg]
  · cases ls <;> rfl
  · intro hand
    exact hand.2 rfl

theorem gtFlatF_cons (f : Nat) (l : PLine) (rest : List PLine) :
    gtFlatF (f + 1) (l :: rest)
      = processRun l.key (rest.takeWhile (fun q => q.key == l.key)) [l.payload] [l.num]
          ++ gtFlatF f (rest.dropWhile (fun q => q.key == l.key)) := by
  unfold gtFlatF
  simp only [runsF, List.map_cons, List.flatten_cons]
  simp only [processRunGroup]
  rw [processRun_start]

theorem gtSpecAux_eq :
    ∀ (ls : List PLine) (fuel : Nat) (loc : List Char)
      (kvps : List (List Char)) (lns : List Nat),
      ls.length ≤ fuel →
      gtSpecAux ls loc kvps lns
        = processRun loc (ls.takeWhile (fun q => q.key == loc)) kvps lns
            ++ gtFlatF fuel (ls.dropWhile (fun q => q.key == loc)) := by
  intro ls
  induction ls with
  | nil =>
    intro fuel loc kvps lns _
    simp [gtSpecAux, processRun, gtFlatF, runsF]
  | cons l rest ih =>
    intro fuel loc kvps lns hfuel
    simp only [List.length_cons] at hfuel
    by_cases hk : (l.key == loc) = true
    · rw [List.takeWhile_cons, List.dropWhile_cons]
      rw [if_pos hk, if_pos hk]
      simp only [gtSpecAux]
      rw [if_pos hk]
      by_cases hr : l.payload.take 2 = DATABASE_TABLE_ID_TOKEN ∧ kvps ≠ []
      · rw [if_pos hr]
        unfold processRun
        rw [if_pos hr]
        rw [ih fuel loc [l.payload] [l.num] (by omega)]
        simp
      · rw [if_neg hr]
        unfold processRun
        rw [if_neg hr]
        rw [ih fuel loc (kvps ++ [l.payload]) (lns ++ [l.num]) (by omega)]
    · rw [List.takeWhile_cons, List.dropWhile_cons]
      rw [if_neg hk, if_neg hk]
      simp only [gtSpecAux]
      rw [if_neg hk]
      cases fuel with
      | zero => omega
      | succ f =>
        rw [gtFlatF_cons f l rest]
        rw [ih f l.key [l.payload] [l.num] (by omega)]
        simp [processRun]

theorem get_transactions_eq_gtSpec (lines : List (List Char)) :
    get_transactions lines = gtSpec (parsedLines lines 0) := by
  unfold get_transactions
  cases hp : parsedLines lines 0 with
  | nil => simp [gtFlatF, runsF, gtSpec]
  | cons p ps =>
    simp only [gtSpec, List.length_cons]
    rw [gtFlatF_cons ps.length p ps]
    rw [gtSpecAux_eq ps ps.length p.key [p.payload] [p.num] (le_refl _)]

theorem gtSpecAux_line_numbers :
    ∀ (ls : List PLine) (loc : List Char) (kvps : List (List Char)) (lns : List Nat),
      ((gtSpecAux ls loc kvps lns).map Transaction.line_numbers).flatten
        = lns ++ ls.map PLine.num := by
  intro ls
  induction ls with
  | nil =>
    intro loc kvps lns
    simp [gtSpecAux, mkTrans]
  | cons l rest ih =>
    intro loc kvps lns
    simp only [gtSpecAux]
    by_cases hk : (l.key == loc) = true
    · rw [if_pos hk]
      by_cases hr : l.payload.take 2 = DATABASE_TABLE_ID_TOKEN ∧ kvps ≠ []
      · rw [if_pos hr]
        simp only [List.map_cons, List.flatten_cons, ih, mkTrans]
        simp
      · rw [if_neg hr]
        rw [ih loc (kvps ++ [l.payload]) (lns ++ [l.num])]
        simp
    · rw [if_neg hk]
      simp only [List.map_cons, List.flatten_cons, ih, mkTrans]
      simp

theorem parsedLines_map_num :
    ∀ (lines : List (List Char)) (idx : Nat),
      (parsedLines lines idx).map PLine.num
        = (List.range lines.length).map (fun i => i + idx + 2) := by
  intro lines
  induction lines with
  | nil => intro idx; simp [parsedLines]
  | cons l rest ih =>
    intro idx
    simp only [parsedLines, List.map_cons, List.length_cons, List.range_succ_eq_map,
      List.map_map]
    rw [ih (idx + 1)]
    congr 1
    · omega
    · apply List.map_congr_left
      intro a _
      simp only [Function.comp, Nat.succ_eq_add_one]
      omega

/-- C2: get_transactions is the contiguous-run grouper described by the
claim: it coincides with the one-pass reference machine gtSpec that starts
a new transaction at each site-key change and at each `R=` payload with a
non-empty buffer (so two runs of the same site key separated by another
key are never merged); every validated line's number (index plus 2)
appears in exactly one emitted transaction, in document order.  The last
two conjuncts check the non-merging and the `R=` split on concrete
files. -/
theorem C2_transaction_grouping :
    (∀ lines : List (List Char),
        get_transactions lines = gtSpec (parsedLines lines 0))
    ∧ (∀ lines : List (List Char),
        ((get_transactions lines).map Transaction.line_numbers).flatten
          = (List.range lines.length).map (fun i => i + 2))
    ∧ get_transactions
        ["AAAAA111111111111111 5=1*".data, "BBBBB222222222222222 5=2*".data,
          "AAAAA111111111111111 5=3*".data]
        = [⟨"AAAAA".data, "111111111111111".data, "5=1*".data, [2]⟩,
           ⟨"BBBBB".data, "222222222222222".data, "5=2*".data, [3]⟩,
           ⟨"AAAAA".data, "111111111111111".data, "5=3*".data, [4]⟩]
    ∧ get_transactions
        ["AAAAA111111111111111 5=1*".data, "AAAAA111111111111111 R=0*".data]
        = [⟨"AAAAA".data, "111111111111111".data, "5=1*".data, [2]⟩,
           ⟨"AAAAA".data, "111111111111111".data, "R=0*".data, [3]⟩] := by
  refine ⟨get_transactions_eq_gtSpec, ?_, by decide, by decide⟩
  intro lines
  rw [get_transactions_eq_gtSpec lines]
  have h2 := parsedLines_map_num lines 0
  cases hp : parsedLines lines 0 with
  | nil =>
    rw [hp] at h2
    simp only [List.map_nil, Nat.add_zero] at h2
    simp only [gtSpec, List.map_nil, List.flatten_nil]
    exact h2
  | cons p ps =>
    rw [hp] at h2
    simp only [List.map_cons, Nat.add_zero] at h2
    simp only [gtSpec]
    rw [gtSpecAux_line_numbers]
    simp only [List.singleton_append]
    exact h2

-- ## C5: the transaction-count ceiling

theorem splitRN_append_line :
    ∀ (l r : List Char), '\n' ∉ l → '\x0d' ∉ l →
      splitRN (l ++ '\n' :: r) = l :: splitRN r := by
  intro l
  induction l with
  | nil =>
    intro r _ _
    rw [List.nil_append, splitRN_lf]
  | cons c cs ih =>
    intro r hn hr
    have hcn : c ≠ '\n' := fun h => hn (h ▸ List.mem_cons_self c cs)
    have hcr : c ≠ '\x0d' := fun h => hr (h ▸ List.mem_cons_self c cs)
    rw [List.cons_append]
    rw [splitRN_cons_other c (cs ++ '\n' :: r) hcn (fun r2 hc _ => hcr hc)]
    rw [ih r (fun h => hn (List.mem_cons_of_mem c h))
          (fun h => hr (List.mem_cons_of_mem c h))]

theorem splitRN_flatten_rep :
    ∀ (n : Nat) (l : List Char), '\n' ∉ l → '\x0d' ∉ l →
      splitRN ((List.replicate n (l ++ ['\n'])).flatten) = List.replicate n l ++ [[]] := by
  intro n
  induction n with
  | zero => intro l _ _; rfl
  | succ n ih =>
    intro l hn hr
    rw [List.replicate_succ, List.flatten_cons]
    have : (l ++ ['\n']) ++ (List.replicate n (l ++ ['\n'])).flatten
        = l ++ '\n' :: (List.replicate n (l ++ ['\n'])).flatten := by
      simp
    rw [this, splitRN_append_line l _ hn hr, ih l hn hr, List.replicate_succ]
    rfl

theorem violations_rep :
    ∀ (n idx : Nat) (l : List Char), l.length ≤ 80 → 21 ≤ l.length →
      l.get? 20 = some ' ' →
      violations (List.replicate n l) idx = ([], [], []) := by
  intro n
  induction n with
  | zero => intro idx l _ _ _; rfl
  | succ n ih =>
    intro idx l h1 h2 h3
    rw [List.replicate_succ]
    simp only [violations]
    rw [if_neg (by omega), if_neg (by omega), if_neg (fun hcon => hcon h3)]
    exact ih (idx + 1) l h1 h2 h3

theorem validate_lines_rep (n : Nat) (l : List Char) (h1 : l.length ≤ 80)
    (h2 : 21 ≤ l.length) (h3 : l.get? 20 = some ' ') :
    validate_lines (List.replicate n l) = [] := by
  unfold validate_lines
  rw [violations_rep n 0 l h1 h2 h3]
  rfl

theorem get_lines_rep (n : Nat) (l : List Char)
    (hnolf : '\n' ∉ l) (hnocr : '\x0d' ∉ l) (hval : validate_lines (List.replicate n l) = []) :
    get_lines ('h' :: '\n' :: (List.replicate n (l ++ ['\n'])).flatten)
      = .ok (List.replicate n l) := by
  have hsplit : splitRN ('h' :: '\n' :: (List.replicate n (l ++ ['\n'])).flatten)
      = ['h'] :: (List.replicate n l ++ [[]]) := by
    rw [splitRN_cons_other 'h' _ (by decide) (fun r2 hc _ => by cases hc)]
    rw [splitRN_lf, splitRN_flatten_rep n l hnolf hnocr]
  unfold get_lines
  rw [if_neg (by simp)]
  dsimp only []
  rw [hsplit]
  simp only [List.drop_succ_cons, List.drop_zero]
  rw [if_neg (by simp)]
  rw [List.getLastD_concat, if_pos rfl, List.dropLast_concat]
  rw [if_neg (by simp [hval])]

theorem parsedLines_length :
    ∀ (lines : List (List Char)) (idx : Nat), (parsedLines lines idx).length = lines.length := by
  intro lines
  induction lines with
  | nil => intro idx; rfl
  | cons l rest ih =>
    intro idx
    simp only [parsedLines, List.length_cons, ih]

theorem parsedLines_rep_mem :
    ∀ (n idx : Nat) (l : List Char) (q : PLine),
      q ∈ parsedLines (List.replicate n l) idx →
      q.key = l.take 20 ∧ q.payload = l.drop 21 := by
  intro n
  induction n with
  | zero => intro idx l q hq; simp [parsedLines] at hq
  | succ n ih =>
    intro idx l q hq
    rw [List.replicate_succ] at hq
    simp only [parsedLines, List.mem_cons] at hq
    rcases hq with rfl | hq
    · exact ⟨rfl, rfl⟩
    · exact ih (idx + 1) l q hq

theorem processRun_all_R :
    ∀ (ps : List PLine) (loc : List Char) (kvps : List (List Char)) (lns : List Nat),
      kvps ≠ [] → (∀ q ∈ ps, q.payload.take 2 = DATABASE_TABLE_ID_TOKEN) →
      (processRun loc ps kvps lns).length = ps.length + 1 := by
  intro ps
  induction ps with
  | nil => intro loc kvps lns _ _; rfl
  | cons q qs ih =>
    intro loc kvps lns hk hall
    unfold processRun
    rw [if_pos ⟨hall q (List.mem_cons_self q qs), hk⟩]
    simp only [List.length_cons]
    rw [ih loc [q.payload] [q.num] (by simp)
      (fun x hx => hall x (List.mem_cons_of_mem q hx))]

theorem get_transactions_rep (n : Nat) (l : List Char) (hn1 : 1 ≤ n)
    (hR : (l.drop 21).take 2 = DATABASE_TABLE_ID_TOKEN) :
    (get_transactions (List.replicate n l)).length = n := by
  unfold get_transactions
  cases hp : parsedLines (List.replicate n l) 0 with
  | nil =>
    have := parsedLines_length (List.replicate n l) 0
    rw [hp] at this
    simp at this
    omega
  | cons p ps =>
    have hlen := parsedLines_length (List.replicate n l) 0
    rw [hp] at hlen
    simp only [List.length_cons, List.length_replicate] at hlen ⊢
    rw [gtFlatF_cons]
    have hmem : ∀ q ∈ parsedLines (List.replicate n l) 0,
        q.key = l.take 20 ∧ q.payload = l.drop 21 :=
      fun q hq => parsedLines_rep_mem n 0 l q hq
    rw [hp] at hmem
    have hpk : p.key = l.take 20 := (hmem p (List.mem_cons_self p ps)).1
    have htw : ps.takeWhile (fun q => q.key == p.key) = ps := by
      apply takeWhile_all
      intro q hq
      have := (hmem q (List.mem_cons_of_mem p hq)).1
      simp [this, hpk]
    have hdw : ps.dropWhile (fun q => q.key == p.key) = [] := by
      apply dropWhile_all
      intro q hq
      have := (hmem q (List.mem_cons_of_mem p hq)).1
      simp [this, hpk]
    rw [htw, hdw]
    have hrep : (processRun p.key ps [p.payload] [p.num]).length = ps.length + 1 := by
      apply processRun_all_R ps p.key [p.payload] [p.num] (by simp)
      intro q hq
      rw [(hmem q (List.mem_cons_of_mem p hq)).2]
      exact hR
    simp only [gtFlatF, runsF, List.map_nil, List.flatten_nil, List.append_nil]
    omega

/-- C5: whenever the grouped transaction count exceeds the 30000 ceiling,
parse fails with TooManyTransactions, before any per-transaction token
parsing (no assumption is made on any transaction's payload); and when the
count is within the ceiling, parse never fails with TooManyTransactions,
so a file of exactly 30000 transactions is not rejected by this check. -/
theorem C5_transaction_ceiling :
    (∀ (content : List Char) (lines : List (List Char)),
        get_lines content = .ok lines →
        MAX_TRANSACTIONS < (get_transactions lines).length →
        parse content = .error (.parseError .tooManyTransactions))
    ∧ (∀ (content : List Char) (lines : List (List Char)),
        get_lines content = .ok lines →
        (get_transactions lines).length ≤ MAX_TRANSACTIONS →
        parse content ≠ .error (.parseError .tooManyTransactions)) := by
  constructor
  · intro content lines hok hcount
    have hp : pipelineResults content = .error (.parseError .tooManyTransactions) := by
      unfold pipelineResults
      rw [hok]
      dsimp only []
      rw [if_pos]
      unfold too_many_transactions
      rw [if_pos hcount]
    unfold parse
    rw [hp]
  · intro content lines hok hcount h
    have htm : too_many_transactions (get_transactions lines).length = false := by
      unfold too_many_transactions
      rw [if_neg (by omega)]
    unfold parse at h
    cases hp : pipelineResults content with
    | error e =>
      rw [hp] at h
      injection h with he
      subst he
      unfold pipelineResults at hp
      rw [hok] at hp
      dsimp only [] at hp
      rw [htm] at hp
      simp only [Bool.false_eq_true, if_false] at hp
      obtain ⟨t, _, het⟩ := processAll_error_mem _ _ hp
      rcases processTransaction_error_shapes _ _ het with
        h' | ⟨ke, h'⟩ | h' | h' | ⟨cs, h'⟩ | h' <;> cases h'
    | ok results =>
      rw [hp] at h
      dsimp only [] at h
      split at h
      · injection h with he
        cases he
      · cases h

/-- Witness for C5: a file of 30001 single-line transactions (each payload
starting with the token that opens a new transaction) passes line
validation, groups into 30001 transactions, and is rejected with
TooManyTransactions even though every one of its payloads would fail token
parsing; a small valid file is not rejected by the ceiling check. -/
theorem C5_witness :
    parse ('h' :: '\n' :: (List.replicate 30001 ("UUUUU111111111111111 R=".data ++ ['\n'])).flatten)
        = .error (.parseError .tooManyTransactions)
    ∧ parse "h\nUSGS 123456789012345 T=A*R=0*".data
        ≠ .error (.parseError .tooManyTransactions) := by
  have hok : get_lines ('h' :: '\n' ::
      (List.replicate 30001 ("UUUUU111111111111111 R=".data ++ ['\n'])).flatten)
      = .ok (List.replicate 30001 "UUUUU111111111111111 R=".data) :=
    get_lines_rep 30001 _ (by decide) (by decide)
      (validate_lines_rep 30001 _ (by decide) (by decide) (by decide))
  have hcount : (get_transactions
      (List.replicate 30001 "UUUUU111111111111111 R=".data)).length = 30001 :=
    get_transactions_rep 30001 _ (by omega) (by decide)
  constructor
  · exact C5_transaction_ceiling.1 _ _ hok (by rw [hcount]; decide)
  · exact C5_transaction_ceiling.2 _ ["USGS 123456789012345 T=A*R=0*".data]
      (by decide) (by decide)

-- ## C1: duplicate site detection on the filtered result set

theorem nodup_iff_count_le_one_beq {α} [BEq α] [LawfulBEq α] :
    ∀ l : List α, l.Nodup ↔ ∀ a ∈ l, l.count a ≤ 1 := by
  intro l
  induction l with
  | nil => simp
  | cons x xs ih =>
    rw [List.nodup_cons]
    constructor
    · rintro ⟨hx, hnd⟩ a ha
      rw [List.count_cons]
      by_cases hax : (x == a) = true
      · have hxa : x = a := eq_of_beq hax
        subst hxa
        rw [List.count_eq_zero.mpr hx]
        simp
      · rcases List.mem_cons.mp ha with rfl | hmem
        · exact absurd (beq_self_eq_true a) hax
        · have := (ih.mp hnd) a hmem
          simp only [hax, Bool.false_eq_true, if_false]
          omega
    · intro h
      refine ⟨?_, ih.mpr ?_⟩
      · intro hx
        have h1 := h x (List.mem_cons_self x xs)
        rw [List.count_cons, if_pos (beq_self_eq_true x)] at h1
        have h2 : xs.count x ≠ 0 := fun h0 => (List.count_eq_zero.mp h0) hx
        omega
      · intro a ha
        have h1 := h a (List.mem_cons_of_mem x ha)
        rw [List.count_cons] at h1
        by_cases hax : (x == a) = true
        · rw [if_pos hax] at h1
          omega
        · rw [if_neg hax] at h1
          omega

theorem duplicateSitesOf_eq_nil_iff (rs : List Dict) :
    duplicateSitesOf rs = [] ↔ (sitesOf rs).Nodup := by
  unfold duplicateSitesOf
  rw [List.dedup_eq_nil, List.filter_eq_nil_iff, nodup_iff_count_le_one_beq]
  constructor
  · intro h a
    by_cases ha : a ∈ sitesOf rs
    · intro _
      have := h a ha
      simp only [decide_eq_true_eq] at this
      omega
    · intro hmem
      exact absurd hmem ha
  · intro h a ha
    simp only [decide_eq_true_eq]
    have := h a ha
    omega

/-- C1: parse fails with DuplicateSite exactly when the per-transaction
pipeline succeeds and, among the produced attribute mappings whose
databaseTableIdentifier is the literal string 0, some
(agencyCode, siteNumber) pair occurs more than once — records filtered out
by the sitefile filter never contribute; consequently whenever parse
succeeds, the returned records carry pairwise distinct
(agencyCode, siteNumber) pairs. -/
theorem C1_duplicate_site_detection :
    ∀ content : List Char,
      ((∃ ds, parse content = .error (.parseError (.duplicateSite ds)))
        ↔ (∃ results, pipelineResults content = .ok results
            ∧ ¬ (sitesOf (siteResultsOf results)).Nodup))
      ∧ (∀ res, parse content = .ok res → (sitesOf res).Nodup) := by
  intro content
  constructor
  · constructor
    · rintro ⟨ds, h⟩
      unfold parse at h
      cases hp : pipelineResults content with
      | error e =>
        rw [hp] at h
        injection h with he
        subst he
        rcases pipelineResults_error_shapes _ _ hp with
          h' | h' | ⟨m, h'⟩ | h' | ⟨t, het⟩
        · cases h'
        · cases h'
        · cases h'
        · cases h'
        · rcases processTransaction_error_shapes _ _ het with
            h' | ⟨ke, h'⟩ | h' | h' | ⟨cs, h'⟩ | h' <;> cases h'
      | ok results =>
        rw [hp] at h
        dsimp only [] at h
        split at h
        · rename_i hdup
          refine ⟨results, rfl, ?_⟩
          intro hnodup
          exact hdup ((duplicateSitesOf_eq_nil_iff _).mpr hnodup)
        · cases h
    · rintro ⟨results, hp, hnodup⟩
      refine ⟨duplicateSitesOf (siteResultsOf results), ?_⟩
      unfold parse
      rw [hp]
      dsimp only []
      rw [if_pos (fun h0 => hnodup ((duplicateSitesOf_eq_nil_iff _).mp h0))]
  · intro res h
    unfold parse at h
    cases hp : pipelineResults content with
    | error e =>
      rw [hp] at h
      cases h
    | ok results =>
      rw [hp] at h
      dsimp only [] at h
      split at h
      · cases h
      · rename_i hdup
        injection h with he
        subst he
        exact (duplicateSitesOf_eq_nil_iff _).mp (not_not.mp hdup)

/-- Witness for C1: a valid single-site file parses successfully with
pairwise distinct site pairs, and a file with two sitefile transactions
for the same agency code and site number fails with DuplicateSite. -/
theorem C1_witness :
    (parse "h\nUSGS 123456789012345 T=A*R=0*".data
        = .ok [[("transactionType".data, "A".data),
                ("databaseTableIdentifier".data, "0".data),
                ("agencyCode".data, "USGS ".data),
                ("siteNumber".data, "123456789012345".data)]]
      ∧ (sitesOf [[("transactionType".data, "A".data),
            ("databaseTableIdentifier".data, "0".data),
            ("agencyCode".data, "USGS ".data),
            ("siteNumber".data, "123456789012345".data)]]).Nodup)
    ∧ (∃ ds, parse "h\nUSGS 123456789012345 T=A*R=0*\nUSGS 123456789012345 R=0*T=A*".data
        = .error (.parseError (.duplicateSite ds))) := by
  constructor
  · exact ⟨by decide,
      (C1_duplicate_site_detection "h\nUSGS 123456789012345 T=A*R=0*".data).2 _ (by decide)⟩
  · exact (C1_duplicate_site_detection
      "h\nUSGS 123456789012345 T=A*R=0*\nUSGS 123456789012345 R=0*T=A*".data).1.mpr
      ⟨[[("transactionType".data, "A".data),
         ("databaseTableIdentifier".data, "0".data),
         ("agencyCode".data, "USGS ".data),
         ("siteNumber".data, "123456789012345".data)],
        [("databaseTableIdentifier".data, "0".data),
         ("transactionType".data, "A".data),
         ("agencyCode".data, "USGS ".data),
         ("siteNumber".data, "123456789012345".data)]], by decide, by decide⟩

-- ## C9: round-tripping the token grammar

theorem serializePairs_cons (k v : List Char)
    (ps : List (List Char × List Char)) :
    serializePairs ((k, v) :: ps) = k ++ '=' :: v ++ '*' :: serializePairs ps := by
  simp [serializePairs]

theorem pkvLoop_step (s : List Char) (i j : Nat)
    (hsep : findFirst isSep s = some i) (hend : findFirst isEnd s = some j) :
    pkvLoop s =
      match pkvLoop (s.drop (j + 1 + ((s.drop (j + 1)).takeWhile isPySpace).length)) with
      | .error e => .error e
      | .ok rest => .ok ((s.take i, (s.drop (i + 1)).take (j - (i + 1))) :: rest) := by
  cases s with
  | nil => simp [findFirst] at hsep
  | cons c cs =>
    show pkvGoF (c :: cs).length (c :: cs) = _
    simp only [List.length_cons]
    simp only [pkvGoF, hsep, hend]
    have hlen : ((c :: cs).drop
        (j + 1 + (((c :: cs).drop (j + 1)).takeWhile isPySpace).length)).length
        ≤ cs.length := by
      rw [List.length_drop]
      simp only [List.length_cons]
      omega
    rw [pkvGoF_fuel cs.length _ _ hlen (le_refl _)]
    rfl

theorem pkv_first_key_prefix (m : Nat) (d : Char) (ds k1 v1 : List Char)
    (rest2 : List (List Char × List Char))
    (hrec : pkvGoF m (d :: ds) = .ok ((k1, v1) :: rest2)) :
    ∃ i1, k1 = (d :: ds).take i1 := by
  cases m with
  | zero => simp [pkvGoF] at hrec
  | succ m =>
    simp only [pkvGoF] at hrec
    cases hs1 : findFirst isSep (d :: ds) with
    | none => simp [hs1] at hrec
    | some i1 =>
      cases he1 : findFirst isEnd (d :: ds) with
      | none => simp [hs1, he1] at hrec
      | some j1 =>
        simp only [hs1, he1] at hrec
        split at hrec
        · cases hrec
        · injection hrec with hl
          injection hl with hp _
          injection hp with hk _
          exact ⟨i1, hk.symm⟩

theorem serialize_takeWhile_nil (m : Nat) (d : Char) (ds k1 v1 : List Char)
    (rest2 : List (List Char × List Char))
    (hrec : pkvGoF m (d :: ds) = .ok ((k1, v1) :: rest2))
    (hd : isPySpace d = false) :
    (serializePairs ((k1, v1) :: rest2)).takeWhile isPySpace = [] := by
  apply takeWhile_eq_nil_head
  intro ch hch
  rw [serializePairs_cons] at hch
  obtain ⟨i1, hk⟩ := pkv_first_key_prefix m d ds k1 v1 rest2 hrec
  cases hk1 : k1 with
  | nil =>
    rw [hk1] at hch
    simp only [List.nil_append, List.head?_cons] at hch
    injection hch with hch
    subst hch
    decide
  | cons kh kt =>
    rw [hk1] at hch
    simp only [List.cons_append, List.head?_cons] at hch
    injection hch with hch
    subst hch
    rw [hk1] at hk
    cases i1 with
    | zero => simp at hk
    | succ i1 =>
      rw [List.take_succ_cons] at hk
      injection hk with hkh _
      rw [hkh]
      exact hd

theorem pkv_roundtrip :
    ∀ (n : Nat) (s : List Char) (pairs : List (List Char × List Char)),
      s.length ≤ n →
      pkvGoF n s = .ok pairs →
      (∀ p ∈ pairs, ∀ c ∈ p.1, isEnd c = false) →
      pkvLoop (serializePairs pairs) = .ok pairs := by
  intro n
  induction n with
  | zero =>
    intro s pairs hlen hok _
    have hs : s = [] := List.eq_nil_of_length_eq_zero (Nat.le_zero.mp hlen)
    subst hs
    simp only [pkvGoF] at hok
    injection hok with h
    subst h
    rfl
  | succ n ih =>
    intro s pairs hlen hok hkeys
    cases s with
    | nil =>
      simp only [pkvGoF] at hok
      injection hok with h
      subst h
      rfl
    | cons c cs =>
      simp only [pkvGoF] at hok
      split at hok
      · cases hok
      · rename_i i hsep
        split at hok
        · cases hok
        · rename_i j hend
          split at hok
          · cases hok
          · rename_i restPairs hrec
            injection hok with hpairs
            subst hpairs
            set K := List.take i (c :: cs) with hK
            set V := List.take (j - (i + 1)) (List.drop (i + 1) (c :: cs)) with hV
            set T := serializePairs restPairs with hT
            rw [show serializePairs ((K, V) :: restPairs)
                = K ++ ('=' :: (V ++ ('*' :: T))) from by rw [hT]; simp [serializePairs]]
            -- character-class facts about the first pair
            have hkeyNoSep : ∀ ch ∈ K, isSep ch = false :=
              findFirst_take isSep (c :: cs) i hsep
            have hkeyNoEnd : ∀ ch ∈ K, isEnd ch = false := by
              intro ch hch
              exact hkeys _ (List.mem_cons_self _ _) ch hch
            have hvalNoEnd : ∀ ch ∈ V, isEnd ch = false := by
              intro ch hch
              rw [hV, ← List.drop_take j (i + 1) (c :: cs)] at hch
              exact findFirst_take isEnd (c :: cs) j hend ch (List.drop_subset _ _ hch)
            -- searching in the serialized string
            have hsep2 : findFirst isSep (K ++ ('=' :: (V ++ ('*' :: T)))) = some K.length :=
              findFirst_append isSep '=' (V ++ ('*' :: T)) K hkeyNoSep (by decide)
            have hformB : K ++ ('=' :: (V ++ ('*' :: T))) = (K ++ ('=' :: V)) ++ ('*' :: T) := by
              simp
            have hend2 : findFirst isEnd (K ++ ('=' :: (V ++ ('*' :: T))))
                = some (K ++ ('=' :: V)).length := by
              rw [hformB]
              apply findFirst_append isEnd '*' T (K ++ ('=' :: V)) _ (by decide)
              intro ch hch
              rcases List.mem_append.mp hch with hch | hch
              · exact hkeyNoEnd ch hch
              · rcases List.mem_cons.mp hch with rfl | hch
                · decide
                · exact hvalNoEnd ch hch
            -- the remaining string after the first serialized pair is T
            have hformC : K ++ ('=' :: (V ++ ('*' :: T)))
                = ((K ++ ('=' :: V)) ++ ['*']) ++ T := by
              simp
            have hlen2 : ((K ++ ('=' :: V)) ++ ['*']).length = (K ++ ('=' :: V)).length + 1 := by
              simp
              omega
            have hd1 : (K ++ ('=' :: (V ++ ('*' :: T)))).drop ((K ++ ('=' :: V)).length + 1)
                = T := by
              rw [hformC, ← hlen2, List.drop_left]
            -- the slice between separator and ending token is V
            have hformD : K ++ ('=' :: (V ++ ('*' :: T))) = (K ++ ['=']) ++ (V ++ ('*' :: T)) := by
              simp
            have hlen3 : (K ++ ['=']).length = K.length + 1 := by
              simp
            have hd2 : (K ++ ('=' :: (V ++ ('*' :: T)))).drop (K.length + 1)
                = V ++ ('*' :: T) := by
              rw [hformD, ← hlen3, List.drop_left]
            have harith : (K ++ ('=' :: V)).length - (K.length + 1) = V.length := by
              simp only [List.length_append, List.length_cons]
              omega
            -- no whitespace follows the first serialized ending token
            have hTW : T.takeWhile isPySpace = [] := by
              cases hrp : restPairs with
              | nil => rw [hT, hrp]; rfl
              | cons p1 rest2 =>
                obtain ⟨k1, v1⟩ := p1
                have hdw : List.drop
                    (j + 1 + (List.takeWhile isPySpace (List.drop (j + 1) (c :: cs))).length)
                    (c :: cs)
                    = ((c :: cs).drop (j + 1)).dropWhile isPySpace := by
                  rw [← List.drop_drop, drop_takeWhile_length]
                rw [hrp] at hrec
                rw [hdw] at hrec
                cases hDD : ((c :: cs).drop (j + 1)).dropWhile isPySpace with
                | nil =>
                  rw [hDD] at hrec
                  cases n with
                  | zero => simp [pkvGoF] at hrec
                  | succ m => simp [pkvGoF] at hrec
                | cons d ds =>
                  rw [hDD] at hrec
                  have hd : isPySpace d = false := by
                    apply dropWhile_head_not isPySpace ((c :: cs).drop (j + 1))
                    rw [hDD]
                    rfl
                  rw [hT, hrp]
                  exact serialize_takeWhile_nil n d ds k1 v1 rest2 hrec hd
            -- the tail round-trips by the induction hypothesis
            have hlenD : (List.drop
                (j + 1 + (List.takeWhile isPySpace (List.drop (j + 1) (c :: cs))).length)
                (c :: cs)).length ≤ n := by
              rw [List.length_drop]
              simp only [List.length_cons] at hlen ⊢
              omega
            have hihT : pkvLoop T = .ok restPairs := by
              rw [hT]
              exact ih _ restPairs hlenD hrec
                (fun p hp ch hch => hkeys p (List.mem_cons_of_mem _ hp) ch hch)
            -- assemble via the loop-step equation
            rw [pkvLoop_step (K ++ ('=' :: (V ++ ('*' :: T)))) K.length
              (K ++ ('=' :: V)).length hsep2 hend2]
            rw [hd1, hTW]
            simp only [List.length_nil, Nat.add_zero]
            rw [hd1, hihT]
            rw [List.take_left, hd2, harith, List.take_left]

theorem pkvGoF_cons_ok_ne_nil (fuel : Nat) (c : Char) (cs : List Char)
    (pairs : List (List Char × List Char))
    (h : pkvGoF fuel (c :: cs) = .ok pairs) : pairs ≠ [] := by
  cases fuel with
  | zero => simp [pkvGoF] at h
  | succ fuel =>
    simp only [pkvGoF] at h
    split at h
    · cases h
    · split at h
      · cases h
      · split at h
        · cases h
        · injection h with h2
          rw [← h2]
          simp

theorem serializePairs_ne_nil (pairs : List (List Char × List Char))
    (h : pairs ≠ []) : serializePairs pairs ≠ [] := by
  cases pairs with
  | nil => exact absurd rfl h
  | cons p ps =>
    obtain ⟨k, v⟩ := p
    rw [serializePairs_cons]
    cases k <;> simp

/-- Counterexample to C9 as stated: the successful run on the payload
`a*b=*` returns pairs whose first key contains an ending-token character;
serializing and re-parsing then splits inside that key and yields a third
pair, so the round trip fails for pairs coming from a successful run. -/
theorem C9_counterexample :
    parse_key_value_pairs "a*b=*".data = .ok [("a*b".data, []), ("b".data, [])]
    ∧ serializePairs [("a*b".data, []), ("b".data, [])] = "a*b=*b=*".data
    ∧ parse_key_value_pairs "a*b=*b=*".data
        = .ok [("a*b".data, []), ("b".data, []), ("b".data, [])] :=
  ⟨by decide, by decide, by decide⟩

/-- C9 (amended): for pairs returned by a successful parse_key_value_pairs
run none of whose KEYS contains an ending-token character (`*` or `$` —
keys from a successful run can contain them, which breaks the round trip),
serializing each pair as key, separator, value, ending token and
re-parsing yields the same ordered list, and hence
translate_keys_to_attributes gives the same attribute mapping. -/
theorem C9_roundtrip_amended :
    ∀ (s : List Char) (pairs : List (List Char × List Char)),
      parse_key_value_pairs s = .ok pairs →
      (∀ p ∈ pairs, ∀ c ∈ p.1, isEnd c = false) →
      parse_key_value_pairs (serializePairs pairs) = .ok pairs
      ∧ (∀ pairs2, parse_key_value_pairs (serializePairs pairs) = .ok pairs2 →
          translate_keys_to_attributes pairs2 = translate_keys_to_attributes pairs) := by
  intro s pairs hok hkeys
  unfold parse_key_value_pairs at hok
  split at hok
  · cases hok
  · rename_i hs
    have hsne : pairs ≠ [] := by
      cases s with
      | nil => exact absurd rfl hs
      | cons c cs => exact pkvGoF_cons_ok_ne_nil (c :: cs).length c cs pairs hok
    have hrt : pkvLoop (serializePairs pairs) = .ok pairs :=
      pkv_roundtrip s.length s pairs (le_refl _) hok hkeys
    have hmain : parse_key_value_pairs (serializePairs pairs) = .ok pairs := by
      unfold parse_key_value_pairs
      rw [if_neg (serializePairs_ne_nil pairs hsne)]
      exact hrt
    refine ⟨hmain, ?_⟩
    intro pairs2 h2
    rw [hmain] at h2
    injection h2 with h2
    rw [h2]

/-- Witness for C9: the pairs parsed from `5=ABC* T=A*` have benign keys,
and serializing then re-parsing returns exactly the same pairs. -/
theorem C9_witness :
    parse_key_value_pairs (serializePairs [("5".data, "ABC".data), ("T".data, "A".data)])
      = .ok [("5".data, "ABC".data), ("T".data, "A".data)] :=
  (C9_roundtrip_amended "5=ABC* T=A*".data
    [("5".data, "ABC".data), ("T".data, "A".data)] (by decide) (by decide)).1
